import Mathlib

/-!
Verification of the docmost page-hierarchy service
(`apps/server/src/core/page/services/page.service.ts`) and of the comment
list item component (`client/src/features/comment/components/comment-list-item.tsx`).

The database table of pages is embedded as a `List Page`; the Kysely
queries of the service are embedded as list filters, sorts and slices.
Position strings are embedded as lists of digits (`List Nat`) compared
lexicographically, matching the lexicographic comparison of position
strings performed by `ORDER BY position`.
-/

namespace Docmost

/-- A position key: a string of digits, compared lexicographically. -/
abbrev Pos := List Nat

/-- Strict lexicographic order on position keys. -/
def posLt (a b : Pos) : Prop := List.Lex (· < ·) a b

/-- Reflexive lexicographic order on position keys. -/
def posLe (a b : Pos) : Prop := posLt a b ∨ a = b

instance : DecidableRel posLt := fun a b =>
  inferInstanceAs (Decidable (List.Lex (· < ·) a b))

instance : DecidableRel posLe := fun a b =>
  inferInstanceAs (Decidable (_ ∨ _))

/-- A syntactically valid position key: nonempty, all digits below the
base, and not ending in the zero digit (so that a key strictly in front
of it always exists). -/
def isValidPos (p : Pos) : Bool :=
  !p.isEmpty && p.all (fun d => decide (d < 10)) && p.getLastD 1 != 0

/-- Modelled from the spec: the `fractional-indexing-jittered` library is
not part of the provided source.  `above a j` produces a key strictly
after `a`, carrying the jitter `j` in its low-order digit. -/
def above (a : Pos) (j : Nat) : Pos := a ++ [j % 9 + 1]

/-- Modelled from the spec: `below b j` produces a key strictly before
the valid key `b`, carrying the jitter `j` in its low-order digit. -/
def below : Pos → Nat → Pos
  | [], _ => [1]
  | 0 :: rest, j => 0 :: below rest j
  | (d + 1) :: _, j => [d, j % 9 + 1]

/-- Modelled from the spec: `between a b j` produces a key strictly
between `a` and `b` (for `a` lexicographically before `b`), with jitter
in the low-order digit. -/
def between : Pos → Pos → Nat → Pos
  | [], b, j => below b j
  | _ :: _, [], _ => [1]
  | da :: a1, db :: b1, j =>
    if da = db then da :: between a1 b1 j
    else if da + 1 < db then [da + 1, j % 9 + 1]
    else da :: above a1 j

/-- Modelled from the spec: the key generator of the
`fractional-indexing-jittered` library.  Given the left and right
neighbours (or `none` for an open end) it returns a key sorting strictly
between them, with randomized jitter (the parameter `j`) in the low-order
digits; it throws (returns `.error`) when a supplied bound is
syntactically invalid or the bounds are out of order. -/
def generateJitteredKeyBetween (a b : Option Pos) (j : Nat) : Except String Pos :=
  match a, b with
  | none, none => .ok [j % 9 + 1]
  | some a, none =>
    if isValidPos a then .ok (above a j) else .error "invalid order key"
  | none, some b =>
    if isValidPos b then .ok (below b j) else .error "invalid order key"
  | some a, some b =>
    if isValidPos a && isValidPos b then
      if posLt a b then .ok (between a b j) else .error "key out of order"
    else .error "invalid order key"

/-- A row of the `pages` table, restricted to the columns the page
service reads or writes. -/
structure Page where
  id : String
  title : Option String
  icon : Option String
  content : String
  textContent : String
  ydoc : String
  position : Pos
  parentPageId : Option String
  spaceId : String
  creatorId : String
  workspaceId : String
  lastUpdatedById : String
deriving Repr, DecidableEq

/-- The exceptions the service throws (`NotFoundException`,
`BadRequestException`), plus `internal` for an uncaught error. -/
inductive ServiceError where
  | notFound (msg : String)
  | badRequest (msg : String)
  | internal (msg : String)
deriving Repr, DecidableEq

/-- Modelled from the spec: `pageRepo.findById` is not part of the
provided source; it looks a page row up by its id. -/
def findById (store : List Page) (pageId : String) : Option Page :=
  store.find? (fun p => p.id == pageId)

/-- The fields an `updatePage` call may set.  A field left at `none` is
absent from the update object and the stored column keeps its value
(Kysely skips `undefined` columns).  `parentPageId` is itself nullable,
so its update value is an `Option (Option String)`. -/
structure PageUpdate where
  title : Option String := none
  icon : Option String := none
  content : Option String := none
  textContent : Option String := none
  ydoc : Option String := none
  lastUpdatedById : Option String := none
  position : Option Pos := none
  parentPageId : Option (Option String) := none
deriving Repr, DecidableEq

def applyUpdate (u : PageUpdate) (p : Page) : Page :=
  { p with
    title := match u.title with | some t => some t | none => p.title
    icon := match u.icon with | some i => some i | none => p.icon
    content := u.content.getD p.content
    textContent := u.textContent.getD p.textContent
    ydoc := u.ydoc.getD p.ydoc
    lastUpdatedById := u.lastUpdatedById.getD p.lastUpdatedById
    position := u.position.getD p.position
    parentPageId := u.parentPageId.getD p.parentPageId }

/-- Modelled from the spec: `pageRepo.updatePage` is not part of the
provided source; it sets the supplied columns on the row with the given
id and leaves every other row and column unchanged. -/
def updatePage (store : List Page) (u : PageUpdate) (pageId : String) : List Page :=
  store.map (fun p => if p.id == pageId then applyUpdate u p else p)

/-- Modelled from the spec: `pageRepo.insertPage` is not part of the
provided source; it inserts a new row built from the supplied fields and
returns it. -/
def insertPage (store : List Page) (p : Page) : Page × List Page :=
  (p, store ++ [p])

structure CreatePageDto where
  title : Option String
  icon : Option String
  parentPageId : Option String
  spaceId : String
deriving Repr, DecidableEq

structure UpdatePageDto where
  title : Option String
  icon : Option String
deriving Repr, DecidableEq

structure MovePageDto where
  pageId : String
  position : Pos
  parentPageId : Option String
deriving Repr, DecidableEq

structure SidebarPageDto where
  spaceId : String
  pageId : Option String
deriving Repr, DecidableEq

structure PaginationOptions where
  page : Nat
  perPage : Nat
deriving Repr, DecidableEq

/-- One accumulation step of taking the lexicographically last row. -/
def lastStep (acc : Option Page) (p : Page) : Option Page :=
  match acc with
  | none => some p
  | some q => if posLt q.position p.position then some p else some q

/-- The `ORDER BY position DESC LIMIT 1` step: the row of the list whose position
is lexicographically last (the first such row on ties). -/
def lastByPosition (ps : List Page) : Option Page :=
  ps.foldl lastStep none

/-- A sibling group: the pages of a space sharing a parent (`none`
standing for the SQL `IS NULL` root group). -/
def siblingGroup (store : List Page) (spaceId : String) (parent : Option String) : List Page :=
  store.filter (fun p => p.spaceId == spaceId && p.parentPageId == parent)

/-- The `lastPageQuery` of `create`, already restricted by the branch's
`parentPageId` condition. -/
def lastPageIn (store : List Page) (spaceId : String) (parent : Option String) : Option Page :=
  lastByPosition (siblingGroup store spaceId parent)

def freshPage (dto : CreatePageDto) (userId workspaceId newId : String) (pos : Pos) : Page :=
  { id := newId
    title := dto.title
    icon := dto.icon
    content := ""
    textContent := ""
    ydoc := ""
    position := pos
    parentPageId := dto.parentPageId
    spaceId := dto.spaceId
    creatorId := userId
    workspaceId := workspaceId
    lastUpdatedById := userId }

/-- Embedding of `PageService.create`: checks the parent exists (when one is given),
computes the new position from the destination sibling group, and inserts
the page.  `newId` stands for the id the database assigns; `j` for the
random jitter consumed by the key generator. -/
def create (store : List Page) (userId workspaceId : String) (dto : CreatePageDto)
    (newId : String) (j : Nat) : Except ServiceError (Page × List Page) :=
  let parentCheck : Except ServiceError Unit :=
    match dto.parentPageId with
    | some pid =>
      match findById store pid with
      | none => .error (.notFound "Parent page not found")
      | some _ => .ok ()
    | none => .ok ()
  match parentCheck with
  | .error e => .error e
  | .ok _ =>
    let posE : Except String Pos :=
      match dto.parentPageId with
      | some pid =>
        match lastPageIn store dto.spaceId (some pid) with
        | none => generateJitteredKeyBetween none none j
        | some lastPage => generateJitteredKeyBetween (some lastPage.position) none j
      | none =>
        match lastPageIn store dto.spaceId none with
        | none => generateJitteredKeyBetween none none j
        | some lastPage => generateJitteredKeyBetween (some lastPage.position) none j
    match posE with
    | .error e => .error (.internal e)
    | .ok pos => .ok (insertPage store (freshPage dto userId workspaceId newId pos))

/-- Embedding of `PageService.update`: writes title, icon and the updating user, then
re-reads the row. -/
def update (store : List Page) (pageId : String) (dto : UpdatePageDto) (userId : String) :
    Option Page × List Page :=
  let store' :=
    updatePage store
      { title := dto.title, icon := dto.icon, lastUpdatedById := some userId } pageId
  (findById store' pageId, store')

/-- Embedding of `PageService.updateState`: writes content, textContent, ydoc and,
when a user id is supplied, the updating user. -/
def updateState (store : List Page) (pageId : String) (content textContent ydoc : String)
    (userId : Option String) : List Page :=
  updatePage store
    { content := some content
      textContent := some textContent
      ydoc := some ydoc
      lastUpdatedById := userId } pageId

/-- Embedding of `PageService.movePage`: validates the supplied position by running
the key generator on it, looks the moved page up, checks the target
parent when the parent changes, and writes position (and the new parent,
when it changes) to the row. -/
def movePage (store : List Page) (dto : MovePageDto) (j : Nat) :
    Except ServiceError (List Page) :=
  match generateJitteredKeyBetween (some dto.position) none j with
  | .error _ => .error (.badRequest "Invalid move position")
  | .ok _ =>
    match findById store dto.pageId with
    | none => .error (.notFound "Moved page not found")
    | some movedPage =>
      if movedPage.parentPageId == dto.parentPageId then
        .ok (updatePage store { position := some dto.position } dto.pageId)
      else
        match dto.parentPageId with
        | some pid =>
          match findById store pid with
          | none => .error (.notFound "Parent page not found")
          | some _ =>
            .ok (updatePage store
              { position := some dto.position, parentPageId := some (some pid) } dto.pageId)
        | none =>
          .ok (updatePage store
            { position := some dto.position, parentPageId := some none } dto.pageId)

/-- A row returned by `getSidebarPages`: the selected columns plus the
computed `hasChildren` flag. -/
structure SidebarItem where
  id : String
  title : Option String
  icon : Option String
  position : Pos
  parentPageId : Option String
  spaceId : String
  creatorId : String
  hasChildren : Bool
deriving Repr, DecidableEq

/-- Embedding of `withHasChildren`: whether some page has this page as its parent. -/
def withHasChildren (store : List Page) (p : Page) : Bool :=
  store.any (fun c => c.parentPageId == some p.id)

def toSidebarItem (store : List Page) (p : Page) : SidebarItem :=
  { id := p.id
    title := p.title
    icon := p.icon
    position := p.position
    parentPageId := p.parentPageId
    spaceId := p.spaceId
    creatorId := p.creatorId
    hasChildren := withHasChildren store p }

/-- The WHERE clause of the sidebar query: pages of the requested space
whose parent is the requested page (or root pages when no page id is
supplied). -/
def sidebarFilter (dto : SidebarPageDto) (p : Page) : Bool :=
  p.spaceId == dto.spaceId &&
    match dto.pageId with
    | some pid => p.parentPageId == some pid
    | none => p.parentPageId == none

/-- The comparison of `ORDER BY position ASC`. -/
def byPosition (p q : Page) : Prop := posLe p.position q.position

instance : DecidableRel byPosition := fun p q =>
  inferInstanceAs (Decidable (posLe p.position q.position))

/-- The sidebar query before pagination: filtered, ordered by position
ascending, projected to the selected columns plus `hasChildren`. -/
def sidebarQuery (store : List Page) (dto : SidebarPageDto) : List SidebarItem :=
  (((store.filter (sidebarFilter dto)).insertionSort byPosition).map (toSidebarItem store))

/-- Modelled from the spec: `executeWithPagination` is not part of the
provided source; it returns the requested 1-based page of the query's
rows, `perPage` rows per page. -/
def executeWithPagination {α : Type} (rows : List α) (page perPage : Nat) : List α :=
  (rows.drop ((page - 1) * perPage)).take perPage

/-- Embedding of `PageService.getSidebarPages`: runs the sidebar query and paginates
it with the caller's page number and a fixed page size of 250. -/
def getSidebarPages (store : List Page) (dto : SidebarPageDto)
    (pagination : PaginationOptions) : List SidebarItem :=
  executeWithPagination (sidebarQuery store dto) pagination.page 250

/-- The local state of `CommentListItem` touched by
`handleUpdateComment`. -/
structure CommentItemState where
  isEditing : Bool
  isLoading : Bool
  content : String
deriving Repr, DecidableEq

/-- Embedding of `handleUpdateComment` in `CommentListItem`: sets `isLoading`, awaits
the update mutation (its outcome is the parameter `mutationSucceeds`);
on success leaves editing mode, on failure only logs; in the `finally`
block resets `isLoading`. -/
def handleUpdateComment (mutationSucceeds : Bool) (s : CommentItemState) : CommentItemState :=
  let s1 := { s with isLoading := true }
  let s2 := if mutationSucceeds then { s1 with isEditing := false } else s1
  { s2 with isLoading := false }

/-- The projection of a page to the columns that content and metadata
updates must not touch: identity, position and place in the hierarchy. -/
def hierarchyProj (p : Page) : String × Pos × Option String × String × String × String :=
  (p.id, p.position, p.parentPageId, p.spaceId, p.creatorId, p.workspaceId)

/-- A concrete page used by witnesses and counterexamples. -/
def samplePage (id : String) (parent : Option String) (pos : Pos) : Page :=
  { id := id
    title := none
    icon := none
    content := ""
    textContent := ""
    ydoc := ""
    position := pos
    parentPageId := parent
    spaceId := "s"
    creatorId := "u"
    workspaceId := "w"
    lastUpdatedById := "u" }

/-! ### Order facts about position keys -/

theorem posLt_trans {a b c : Pos} (h1 : posLt a b) (h2 : posLt b c) : posLt a c :=
  trans_of (List.Lex (α := Nat) (· < ·)) h1 h2

theorem posLt_asymm {a b : Pos} (h : posLt a b) : ¬posLt b a :=
  asymm_of (List.Lex (α := Nat) (· < ·)) h

theorem posLe_total (a b : Pos) : posLe a b ∨ posLe b a := by
  rcases trichotomous_of (List.Lex (α := Nat) (· < ·)) a b with h | h | h
  · exact Or.inl (Or.inl h)
  · exact Or.inl (Or.inr h)
  · exact Or.inr (Or.inl h)

theorem posLe_of_not_posLt {a b : Pos} (h : ¬posLt a b) : posLe b a := by
  rcases posLe_total b a with h' | h'
  · exact h'
  · rcases h' with h' | h'
    · exact absurd h' h
    · exact Or.inr h'.symm

theorem posLe_trans {a b c : Pos} (h1 : posLe a b) (h2 : posLe b c) : posLe a c := by
  rcases h1 with h1 | rfl
  · rcases h2 with h2 | rfl
    · exact Or.inl (posLt_trans h1 h2)
    · exact Or.inl h1
  · exact h2

theorem posLt_posLe_trans {a b c : Pos} (h1 : posLt a b) (h2 : posLe b c) : posLe a c := by
  rcases h2 with h2 | rfl
  · exact Or.inl (posLt_trans h1 h2)
  · exact Or.inl h1

/-- A key is strictly before any proper extension of itself. -/
theorem posLt_append (a : Pos) (d : Nat) (t : List Nat) : posLt a (a ++ d :: t) := by
  induction a with
  | nil => exact List.Lex.nil
  | cons x xs ih => exact List.Lex.cons ih

theorem above_gt (a : Pos) (j : Nat) : posLt a (above a j) :=
  posLt_append a (j % 9 + 1) []

theorem below_ne_nil : ∀ (b : Pos) (j : Nat), below b j ≠ []
  | [], _ => by simp [below]
  | 0 :: _, j => by simp [below]
  | (_ + 1) :: _, _ => by simp [below]

theorem posLt_nil {l : Pos} (h : l ≠ []) : posLt [] l := by
  cases l with
  | nil => exact absurd rfl h
  | cons x xs => exact List.Lex.nil

theorem below_lt : ∀ (b : Pos) (j : Nat), b ≠ [] → b.getLastD 1 ≠ 0 → posLt (below b j) b
  | [], _, hne, _ => absurd rfl hne
  | 0 :: rest, j, _, hlast => by
    have hrne : rest ≠ [] := by
      intro h
      subst h
      exact hlast (by simp)
    have hrlast : rest.getLastD 1 ≠ 0 := by
      cases rest with
      | nil => exact absurd rfl hrne
      | cons r rs => simpa [List.getLastD_cons] using hlast
    exact List.Lex.cons (below_lt rest j hrne hrlast)
  | (d + 1) :: _, j, _, _ => List.Lex.rel (Nat.lt_succ_self d)

theorem between_gt : ∀ (a b : Pos) (j : Nat), posLt a b → posLt a (between a b j)
  | [], b, j, _ => by
    have h := below_ne_nil b j
    show posLt [] (below b j)
    exact posLt_nil h
  | _ :: _, [], _, h => absurd h (List.Lex.not_nil_right _ _)
  | da :: a1, db :: b1, j, h => by
    by_cases hd : da = db
    · subst hd
      have h1 : posLt a1 b1 := List.Lex.cons_iff.mp h
      show posLt (da :: a1) (if da = da then da :: between a1 b1 j else _)
      rw [if_pos rfl]
      exact List.Lex.cons (between_gt a1 b1 j h1)
    · show posLt (da :: a1)
        (if da = db then _ else if da + 1 < db then [da + 1, j % 9 + 1] else da :: above a1 j)
      rw [if_neg hd]
      by_cases h2 : da + 1 < db
      · rw [if_pos h2]
        exact List.Lex.rel (Nat.lt_succ_self da)
      · rw [if_neg h2]
        exact List.Lex.cons (above_gt a1 j)

theorem between_lt : ∀ (a b : Pos) (j : Nat),
    posLt a b → b.getLastD 1 ≠ 0 → posLt (between a b j) b
  | [], b, j, h, hlast => by
    have hb : b ≠ [] := by
      cases h with
      | nil => simp
    show posLt (below b j) b
    exact below_lt b j hb hlast
  | _ :: _, [], _, h, _ => absurd h (List.Lex.not_nil_right _ _)
  | da :: a1, db :: b1, j, h, hlast => by
    by_cases hd : da = db
    · subst hd
      have h1 : posLt a1 b1 := List.Lex.cons_iff.mp h
      have hb1 : b1 ≠ [] := by
        intro hb
        subst hb
        exact List.Lex.not_nil_right _ _ h1
      have hlast1 : b1.getLastD 1 ≠ 0 := by
        cases b1 with
        | nil => exact absurd rfl hb1
        | cons r rs => simpa [List.getLastD_cons] using hlast
      show posLt (if da = da then da :: between a1 b1 j else _) (da :: b1)
      rw [if_pos rfl]
      exact List.Lex.cons (between_lt a1 b1 j h1 hlast1)
    · have hlt : da < db := by
        cases h with
        | cons _ => exact absurd rfl hd
        | rel hr => exact hr
      show posLt
        (if da = db then _ else if da + 1 < db then [da + 1, j % 9 + 1] else da :: above a1 j)
        (db :: b1)
      rw [if_neg hd]
      by_cases h2 : da + 1 < db
      · rw [if_pos h2]
        exact List.Lex.rel h2
      · rw [if_neg h2]
        exact List.Lex.rel hlt

theorem isValidPos_ne_nil {p : Pos} (h : isValidPos p = true) : p ≠ [] := by
  intro hp
  subst hp
  simp [isValidPos] at h

theorem isValidPos_getLastD {p : Pos} (h : isValidPos p = true) : p.getLastD 1 ≠ 0 := by
  simp only [isValidPos, Bool.and_eq_true, bne_iff_ne] at h
  exact h.2

/-! ### Claim theorems -/

/-- C1: if the proposed position is syntactically invalid (the key
generator rejects it), `movePage` fails with a bad-request error — for
every store, so no page lookup influences the outcome and no stored page
is mutated (the function returns no updated store). -/
theorem movePage_invalid_position_rejected (store : List Page) (dto : MovePageDto) (j : Nat)
    (h : isValidPos dto.position = false) :
    movePage store dto j = .error (.badRequest "Invalid move position") := by
  simp [movePage, generateJitteredKeyBetween, h]

theorem movePage_invalid_position_rejected_witness :
    isValidPos [1, 0] = false ∧
      movePage [] { pageId := "p1", position := [1, 0], parentPageId := none } 0 =
        .error (.badRequest "Invalid move position") :=
  ⟨by decide,
    movePage_invalid_position_rejected [] { pageId := "p1", position := [1, 0], parentPageId := none }
      0 (by decide)⟩

/-- C7: for valid position keys `p1` lexicographically before `p2`, the
key generator with bounds `p1` and `p2` returns a key strictly between
them, and with a null right bound it returns a key strictly greater than
`p1` — for every jitter value. -/
theorem generateJitteredKeyBetween_strictly_between (p1 p2 : Pos) (j : Nat)
    (h1 : isValidPos p1 = true) (h2 : isValidPos p2 = true) (hlt : posLt p1 p2) :
    (∃ k, generateJitteredKeyBetween (some p1) (some p2) j = .ok k ∧
      posLt p1 k ∧ posLt k p2) ∧
    (∃ k, generateJitteredKeyBetween (some p1) none j = .ok k ∧ posLt p1 k) := by
  constructor
  · refine ⟨between p1 p2 j, ?_, between_gt _ _ _ hlt,
      between_lt _ _ _ hlt (isValidPos_getLastD h2)⟩
    simp [generateJitteredKeyBetween, h1, h2, hlt]
  · exact ⟨above p1 j, by simp [generateJitteredKeyBetween, h1], above_gt p1 j⟩

theorem generateJitteredKeyBetween_strictly_between_witness :
    isValidPos [1] = true ∧ isValidPos [1, 0, 3] = true ∧ posLt [1] [1, 0, 3] ∧
      ((∃ k, generateJitteredKeyBetween (some [1]) (some [1, 0, 3]) 5 = .ok k ∧
          posLt [1] k ∧ posLt k [1, 0, 3]) ∧
        (∃ k, generateJitteredKeyBetween (some [1]) none 5 = .ok k ∧ posLt [1] k)) :=
  ⟨by decide, by decide, by decide,
    generateJitteredKeyBetween_strictly_between [1] [1, 0, 3] 5 (by decide) (by decide)
      (by decide)⟩

/-- C5: `update` and `updateState` leave every page's position and
parentPageId (together with id, spaceId, creatorId and workspaceId)
unchanged; they only write title, icon, content, textContent, ydoc and
the last-updated-by metadata. -/
theorem update_updateState_preserve_hierarchy (store : List Page) (pageId : String)
    (dto : UpdatePageDto) (userId : String) (content textContent ydoc : String)
    (uid : Option String) :
    (update store pageId dto userId).2.map hierarchyProj = store.map hierarchyProj ∧
    (updateState store pageId content textContent ydoc uid).map hierarchyProj
      = store.map hierarchyProj := by
  constructor <;>
  · simp only [update, updateState, updatePage, List.map_map]
    refine List.map_congr_left (fun p _ => ?_)
    by_cases h : p.id = pageId <;> simp [h, hierarchyProj, applyUpdate]

/-- C9: `getSidebarPages` passes the constant 250 as the page size; the
caller's requested per-page size is ignored (any two pagination options
with the same page number give the same result), only the page number is
honored, and a returned page never has more than 250 rows. -/
theorem getSidebarPages_page_size_250 (store : List Page) (dto : SidebarPageDto)
    (pg : PaginationOptions) (otherPerPage : Nat) :
    getSidebarPages store dto pg
        = getSidebarPages store dto { page := pg.page, perPage := otherPerPage } ∧
    getSidebarPages store dto pg
        = ((sidebarQuery store dto).drop ((pg.page - 1) * 250)).take 250 ∧
    (getSidebarPages store dto pg).length ≤ 250 := by
  refine ⟨rfl, rfl, ?_⟩
  simp only [getSidebarPages, executeWithPagination, List.length_take]
  exact min_le_left _ _

/-- C10: saving an edited comment leaves editing mode only on success:
on a failed mutation `isEditing` (and the edited content) is unchanged,
on success `isEditing` becomes false, and in both outcomes `isLoading`
is false when the handler finishes. -/
theorem handleUpdateComment_state (s : CommentItemState) :
    (∀ outcome, (handleUpdateComment outcome s).isLoading = false) ∧
    (handleUpdateComment false s).isEditing = s.isEditing ∧
    (handleUpdateComment false s).content = s.content ∧
    (handleUpdateComment true s).isEditing = false ∧
    (handleUpdateComment true s).content = s.content := by
  refine ⟨fun outcome => ?_, rfl, rfl, rfl, rfl⟩
  cases outcome <;> rfl

/-- Folding `lastStep` from a seed row yields a row of maximal position
among the seed and the list. -/
theorem lastStep_spec (ps : List Page) :
    ∀ q : Page, ∃ m, ps.foldl lastStep (some q) = some m ∧ (m = q ∨ m ∈ ps) ∧
      posLe q.position m.position ∧ ∀ r ∈ ps, posLe r.position m.position := by
  induction ps with
  | nil => exact fun q => ⟨q, rfl, Or.inl rfl, Or.inr rfl, by simp⟩
  | cons p ps ih =>
    intro q
    by_cases h : posLt q.position p.position
    · obtain ⟨m, hm, hmem, hq, hall⟩ := ih p
      refine ⟨m, ?_, ?_, posLt_posLe_trans h hq, ?_⟩
      · simpa [List.foldl_cons, lastStep, h] using hm
      · rcases hmem with rfl | hmem
        · exact Or.inr (List.mem_cons_self _ _)
        · exact Or.inr (List.mem_cons_of_mem _ hmem)
      · intro r hr
        rcases List.mem_cons.mp hr with rfl | hr
        · exact hq
        · exact hall r hr
    · obtain ⟨m, hm, hmem, hq, hall⟩ := ih q
      refine ⟨m, ?_, ?_, hq, ?_⟩
      · simpa [List.foldl_cons, lastStep, h] using hm
      · rcases hmem with rfl | hmem
        · exact Or.inl rfl
        · exact Or.inr (List.mem_cons_of_mem _ hmem)
      · intro r hr
        rcases List.mem_cons.mp hr with rfl | hr
        · exact posLe_trans (posLe_of_not_posLt h) hq
        · exact hall r hr

theorem lastByPosition_eq_none {ps : List Page} (h : lastByPosition ps = none) : ps = [] := by
  cases ps with
  | nil => rfl
  | cons p ps =>
    obtain ⟨m, hm, -, -, -⟩ := lastStep_spec ps p
    rw [lastByPosition, List.foldl_cons] at h
    rw [show lastStep none p = some p from rfl, hm] at h
    cases h

theorem lastByPosition_spec {ps : List Page} {m : Page} (h : lastByPosition ps = some m) :
    m ∈ ps ∧ ∀ r ∈ ps, posLe r.position m.position := by
  cases ps with
  | nil => cases h
  | cons p ps =>
    obtain ⟨m2, hm, hmem, hq, hall⟩ := lastStep_spec ps p
    rw [lastByPosition, List.foldl_cons] at h
    rw [show lastStep none p = some p from rfl, hm] at h
    cases h
    constructor
    · rcases hmem with rfl | hmem
      · exact List.mem_cons_self _ _
      · exact List.mem_cons_of_mem _ hmem
    · intro r hr
      rcases List.mem_cons.mp hr with rfl | hr
      · exact hq
      · exact hall r hr

/-- C3: for every successful create, the new page's position is computed
from its destination sibling group (pages of the same space with the same
parentPageId, root pages when parentPageId is absent): when the group has
a member the position is generated after the group's lexicographically
last position with right bound null, and when the group is empty it is
generated with both bounds null. -/
theorem create_position_from_group (store : List Page) (userId workspaceId newId : String)
    (dto : CreatePageDto) (j : Nat) (page : Page) (store2 : List Page)
    (hok : create store userId workspaceId dto newId j = .ok (page, store2)) :
    (siblingGroup store dto.spaceId dto.parentPageId = []
        → generateJitteredKeyBetween none none j = .ok page.position) ∧
    (siblingGroup store dto.spaceId dto.parentPageId ≠ []
        → ∃ last ∈ siblingGroup store dto.spaceId dto.parentPageId,
            (∀ r ∈ siblingGroup store dto.spaceId dto.parentPageId,
              posLe r.position last.position) ∧
            generateJitteredKeyBetween (some last.position) none j = .ok page.position) := by
  rcases hdto : dto.parentPageId with - | pid
  · rw [create, hdto] at hok
    simp only at hok
    rcases hlast : lastPageIn store dto.spaceId none with - | lastPage
    · rw [hlast] at hok
      simp only [generateJitteredKeyBetween, insertPage] at hok
      cases hok
      exact ⟨fun _ => rfl, fun hne =>
        absurd (lastByPosition_eq_none (hlast : lastByPosition _ = none)) hne⟩
    · rw [hlast] at hok
      simp only at hok
      obtain ⟨hmem, hmax⟩ := lastByPosition_spec (hlast : lastByPosition _ = some lastPage)
      rcases hg : generateJitteredKeyBetween (some lastPage.position) none j with e | k
      · rw [hg] at hok
        cases hok
      · rw [hg] at hok
        simp only [insertPage] at hok
        cases hok
        refine ⟨fun hnil => ?_, fun _ => ⟨lastPage, hmem, hmax, hg⟩⟩
        rw [hnil] at hmem
        cases hmem
  · rw [create, hdto] at hok
    simp only at hok
    rcases hpp : findById store pid with - | pp
    · rw [hpp] at hok
      cases hok
    · rw [hpp] at hok
      simp only at hok
      rcases hlast : lastPageIn store dto.spaceId (some pid) with - | lastPage
      · rw [hlast] at hok
        simp only [generateJitteredKeyBetween, insertPage] at hok
        cases hok
        exact ⟨fun _ => rfl, fun hne =>
          absurd (lastByPosition_eq_none (hlast : lastByPosition _ = none)) hne⟩
      · rw [hlast] at hok
        simp only at hok
        obtain ⟨hmem, hmax⟩ := lastByPosition_spec (hlast : lastByPosition _ = some lastPage)
        rcases hg : generateJitteredKeyBetween (some lastPage.position) none j with e | k
        · rw [hg] at hok
          cases hok
        · rw [hg] at hok
          simp only [insertPage] at hok
          cases hok
          refine ⟨fun hnil => ?_, fun _ => ⟨lastPage, hmem, hmax, hg⟩⟩
          rw [hnil] at hmem
          cases hmem

theorem create_position_from_group_witness :
    (siblingGroup [samplePage "a" none [1]] "s" none = []
        → generateJitteredKeyBetween none none 0
            = .ok (freshPage ⟨none, none, none, "s"⟩ "u" "w" "b" [1, 1]).position) ∧
    (siblingGroup [samplePage "a" none [1]] "s" none ≠ []
        → ∃ last ∈ siblingGroup [samplePage "a" none [1]] "s" none,
            (∀ r ∈ siblingGroup [samplePage "a" none [1]] "s" none,
              posLe r.position last.position) ∧
            generateJitteredKeyBetween (some last.position) none 0
              = .ok (freshPage ⟨none, none, none, "s"⟩ "u" "w" "b" [1, 1]).position) :=
  create_position_from_group [samplePage "a" none [1]] "u" "w" "b" ⟨none, none, none, "s"⟩ 0
    (freshPage ⟨none, none, none, "s"⟩ "u" "w" "b" [1, 1])
    [samplePage "a" none [1], freshPage ⟨none, none, none, "s"⟩ "u" "w" "b" [1, 1]] rfl

/-- C2 counterexample: a move whose target parent does not exist but
equals the moved page's current parent (a dangling reference, reachable
after `forceDelete` of the parent) does not fail with a not-found error:
it succeeds and mutates the page's position, because `movePage` skips
the parent-existence check when the parent is unchanged. -/
theorem move_missing_parent_counterexample :
    findById [samplePage "p1" (some "ghost") [1]] "ghost" = none ∧
    movePage [samplePage "p1" (some "ghost") [1]]
        { pageId := "p1", position := [2], parentPageId := some "ghost" } 0 =
      .ok [{ samplePage "p1" (some "ghost") [1] with position := [2] }] :=
  ⟨rfl, rfl⟩

/-- C2 (amended): creating under a nonexistent parent fails with a
not-found error, and a move request with a syntactically valid position
fails with a not-found error when the moved page does not exist, or when
the target parent differs from the page's current parent and does not
exist; in each case the service returns the error and mutates nothing.
(The parent-existence check is skipped when the target parent equals the
current parent, and an invalid position is reported as bad-request even
when pages are also missing.) -/
theorem create_move_missing_not_found (store : List Page) (j : Nat) :
    (∀ (userId workspaceId newId : String) (dto : CreatePageDto) (pid : String),
      dto.parentPageId = some pid → findById store pid = none →
      create store userId workspaceId dto newId j
        = .error (.notFound "Parent page not found")) ∧
    (∀ dto : MovePageDto, isValidPos dto.position = true →
      findById store dto.pageId = none →
      movePage store dto j = .error (.notFound "Moved page not found")) ∧
    (∀ (dto : MovePageDto) (movedPage : Page) (pid : String),
      isValidPos dto.position = true →
      findById store dto.pageId = some movedPage →
      movedPage.parentPageId ≠ dto.parentPageId →
      dto.parentPageId = some pid →
      findById store pid = none →
      movePage store dto j = .error (.notFound "Parent page not found")) := by
  refine ⟨?_, ?_, ?_⟩
  · intro userId workspaceId newId dto pid hdto hfind
    rw [create, hdto]
    simp [hfind]
  · intro dto hv hfind
    simp [movePage, generateJitteredKeyBetween, hv, hfind]
  · intro dto movedPage pid hv hfind hne hdto hpid
    rw [hdto] at hne
    simp [movePage, generateJitteredKeyBetween, hv, hfind, hne, hdto, hpid]

theorem create_move_missing_not_found_witness :
    create [] "u" "w" { title := none, icon := none, parentPageId := some "gone", spaceId := "s" }
        "p1" 0 = .error (.notFound "Parent page not found") ∧
    movePage [] { pageId := "nope", position := [1], parentPageId := none } 0
        = .error (.notFound "Moved page not found") ∧
    movePage [samplePage "a" none [1]]
        { pageId := "a", position := [1], parentPageId := some "gone" } 0
        = .error (.notFound "Parent page not found") :=
  ⟨(create_move_missing_not_found [] 0).1 "u" "w" "p1"
      { title := none, icon := none, parentPageId := some "gone", spaceId := "s" } "gone" rfl rfl,
   (create_move_missing_not_found [] 0).2.1
      { pageId := "nope", position := [1], parentPageId := none } (by decide) rfl,
   (create_move_missing_not_found [samplePage "a" none [1]] 0).2.2
      { pageId := "a", position := [1], parentPageId := some "gone" }
      (samplePage "a" none [1]) "gone" (by decide) rfl (by decide) rfl rfl⟩

/-- C4 counterexample: a cross-parent move does not recompute the
position relative to the destination sibling group — the request's
position is stored as supplied.  Here the moved page ends with position
`[5]`, identical to the destination sibling's existing position, and the
result is independent of the jitter, so no fractional key was generated
from the destination group's neighbours. -/
theorem movePage_position_not_recomputed_counterexample :
    movePage [samplePage "p1" none [1], samplePage "t" none [2],
        samplePage "p2" (some "t") [5]]
        { pageId := "p1", position := [5], parentPageId := some "t" } 0 =
      .ok [{ samplePage "p1" none [1] with position := [5], parentPageId := some "t" },
        samplePage "t" none [2], samplePage "p2" (some "t") [5]] ∧
    movePage [samplePage "p1" none [1], samplePage "t" none [2],
        samplePage "p2" (some "t") [5]]
        { pageId := "p1", position := [5], parentPageId := some "t" } 7 =
      .ok [{ samplePage "p1" none [1] with position := [5], parentPageId := some "t" },
        samplePage "t" none [2], samplePage "p2" (some "t") [5]] ∧
    (samplePage "p2" (some "t") [5]).parentPageId = some "t" ∧
    (samplePage "p2" (some "t") [5]).position = [5] :=
  ⟨rfl, rfl, rfl, rfl⟩

/-- C4 (amended): for every successful move, the moved row gets the
request's position; its parentPageId is unchanged when the target parent
equals the current parent and is set to the target parent otherwise;
every other field of the moved row, and every other row, is unchanged. -/
theorem movePage_frame (store : List Page) (dto : MovePageDto) (j : Nat) (movedPage : Page)
    (hfind : findById store dto.pageId = some movedPage) (store2 : List Page)
    (hok : movePage store dto j = .ok store2) :
    store2 = store.map (fun p =>
      if p.id == dto.pageId then
        { p with
          position := dto.position
          parentPageId :=
            if movedPage.parentPageId == dto.parentPageId then p.parentPageId
            else dto.parentPageId }
      else p) := by
  rw [movePage] at hok
  rcases hg : generateJitteredKeyBetween (some dto.position) none j with e | k
  · rw [hg] at hok
    cases hok
  · rw [hg] at hok
    simp only at hok
    rw [hfind] at hok
    simp only at hok
    by_cases hb : (movedPage.parentPageId == dto.parentPageId) = true
    · rw [if_pos hb] at hok
      cases hok
      rw [updatePage]
      refine List.map_congr_left (fun p _ => ?_)
      by_cases hp : (p.id == dto.pageId) = true
      · rw [if_pos hp, if_pos hp, if_pos hb]
        simp [applyUpdate]
      · rw [if_neg hp, if_neg hp]
    · rw [if_neg hb] at hok
      rcases hdto : dto.parentPageId with - | pid
      · rw [hdto] at hok hb
        simp only at hok
        cases hok
        rw [updatePage]
        refine List.map_congr_left (fun p _ => ?_)
        by_cases hp : (p.id == dto.pageId) = true
        · rw [if_pos hp, if_pos hp, if_neg hb]
          simp [applyUpdate]
        · rw [if_neg hp, if_neg hp]
      · rw [hdto] at hok hb
        simp only at hok
        rcases hpp : findById store pid with - | pp
        · rw [hpp] at hok
          cases hok
        · rw [hpp] at hok
          simp only at hok
          cases hok
          rw [updatePage]
          refine List.map_congr_left (fun p _ => ?_)
          by_cases hp : (p.id == dto.pageId) = true
          · rw [if_pos hp, if_pos hp, if_neg hb]
            simp [applyUpdate]
          · rw [if_neg hp, if_neg hp]

theorem movePage_frame_witness :
    updatePage [samplePage "p1" none [1], samplePage "t" none [2],
        samplePage "p2" (some "t") [5]]
        { position := some [3], parentPageId := some (some "t") } "p1"
      = [samplePage "p1" none [1], samplePage "t" none [2],
          samplePage "p2" (some "t") [5]].map (fun p =>
            if p.id == "p1" then
              { p with
                position := [3]
                parentPageId :=
                  if (samplePage "p1" none [1]).parentPageId == some "t" then p.parentPageId
                  else some "t" }
            else p) :=
  movePage_frame
    [samplePage "p1" none [1], samplePage "t" none [2], samplePage "p2" (some "t") [5]]
    { pageId := "p1", position := [3], parentPageId := some "t" } 0
    (samplePage "p1" none [1]) rfl
    (updatePage [samplePage "p1" none [1], samplePage "t" none [2],
        samplePage "p2" (some "t") [5]]
      { position := some [3], parentPageId := some (some "t") } "p1") rfl

theorem updatePage_sets_position (store : List Page) (u : PageUpdate) (pid : String) (x : Pos)
    (hu : u.position = some x) :
    ∀ q ∈ updatePage store u pid, q.id = pid → q.position = x := by
  intro q hq hid
  rw [updatePage] at hq
  rcases List.mem_map.mp hq with ⟨p, hp, hfp⟩
  by_cases h : (p.id == pid) = true
  · rw [if_pos h] at hfp
    subst hfp
    simp [applyUpdate, hu]
  · rw [if_neg h] at hfp
    subst hfp
    exact absurd (by simp [hid]) h

/-- C8: `movePage` performs no duplicate detection or repair: whenever
the supplied position is syntactically valid, the moved page exists, and
the parent condition of the move is satisfiable (unchanged parent, move
to root, or existing target parent), the operation succeeds and stores
the request's position string verbatim — with no hypothesis relating the
position to those of the destination siblings, so a position equal to an
existing sibling's is accepted. -/
theorem movePage_writes_position_verbatim (store : List Page) (dto : MovePageDto) (j : Nat)
    (movedPage : Page) (hv : isValidPos dto.position = true)
    (hfind : findById store dto.pageId = some movedPage)
    (hparent : movedPage.parentPageId = dto.parentPageId ∨ dto.parentPageId = none ∨
      ∃ pid parentPage, dto.parentPageId = some pid ∧ findById store pid = some parentPage) :
    ∃ store2, movePage store dto j = .ok store2 ∧
      ∀ q ∈ store2, q.id = dto.pageId → q.position = dto.position := by
  have hg : generateJitteredKeyBetween (some dto.position) none j
      = .ok (above dto.position j) := by
    simp [generateJitteredKeyBetween, hv]
  rw [movePage, hg]
  simp only
  rw [hfind]
  simp only
  by_cases hb : (movedPage.parentPageId == dto.parentPageId) = true
  · rw [if_pos hb]
    exact ⟨_, rfl, updatePage_sets_position store _ dto.pageId dto.position rfl⟩
  · rw [if_neg hb]
    have hne : movedPage.parentPageId ≠ dto.parentPageId := by
      simpa using hb
    rcases hparent with h | h | ⟨pid, parentPage, hdto2, hpp⟩
    · exact absurd h hne
    · rw [h]
      simp only
      exact ⟨_, rfl, updatePage_sets_position store _ dto.pageId dto.position rfl⟩
    · rw [hdto2]
      simp only
      rw [hpp]
      simp only
      exact ⟨_, rfl, updatePage_sets_position store _ dto.pageId dto.position rfl⟩

theorem movePage_writes_position_verbatim_witness :
    isValidPos [2] = true ∧
    findById [samplePage "a" none [1], samplePage "b" none [2]] "a"
      = some (samplePage "a" none [1]) ∧
    (samplePage "b" none [2]).position = [2] ∧
    (∃ store2, movePage [samplePage "a" none [1], samplePage "b" none [2]]
        { pageId := "a", position := [2], parentPageId := none } 0 = .ok store2 ∧
      ∀ q ∈ store2, q.id = "a" → q.position = [2]) :=
  ⟨by decide, rfl, rfl,
    movePage_writes_position_verbatim [samplePage "a" none [1], samplePage "b" none [2]]
      { pageId := "a", position := [2], parentPageId := none } 0 (samplePage "a" none [1])
      (by decide) rfl (Or.inl rfl)⟩

instance : IsTotal Page byPosition := ⟨fun p q => posLe_total p.position q.position⟩

instance : IsTrans Page byPosition := ⟨fun _ _ _ h1 h2 => posLe_trans h1 h2⟩

/-- Concatenating the first `k` result pages of offset pagination gives
the first `k * per` rows of the query. -/
theorem pagination_chunks {α : Type} (rows : List α) (per : Nat) :
    ∀ k, ((List.range k).map (fun i => executeWithPagination rows (i + 1) per)).flatten
      = rows.take (k * per) := by
  intro k
  induction k with
  | zero => simp
  | succ k ih =>
    rw [List.range_succ, List.map_append, List.flatten_append, ih]
    simp only [List.map_cons, List.map_nil, List.flatten_cons, List.flatten_nil,
      List.append_nil, executeWithPagination, Nat.add_sub_cancel]
    rw [Nat.succ_mul, List.take_add]

theorem sidebarFilter_eq (dto : SidebarPageDto) (p : Page) :
    sidebarFilter dto p = true ↔ p.spaceId = dto.spaceId ∧ p.parentPageId = dto.pageId := by
  rw [sidebarFilter]
  rcases hdto : dto.pageId with - | pid
  · simp
  · simp

/-- C6: the sidebar listing returns exactly the requested sibling group
of the requested space (root pages when no page id is supplied), sorted
ascending by the lexicographic order of the position keys; honoring the
pagination, the concatenation of all result pages is exactly that sorted
group. -/
theorem getSidebarPages_group_sorted (store : List Page) (dto : SidebarPageDto) :
    (∀ item, item ∈ sidebarQuery store dto ↔
      ∃ p, p ∈ store ∧ p.spaceId = dto.spaceId ∧ p.parentPageId = dto.pageId ∧
        item = toSidebarItem store p) ∧
    List.Sorted (fun a b : SidebarItem => posLe a.position b.position)
      (sidebarQuery store dto) ∧
    (∀ perPage : Nat, ∃ k,
      ((List.range k).map (fun i =>
          getSidebarPages store dto { page := i + 1, perPage := perPage })).flatten
        = sidebarQuery store dto) := by
  refine ⟨?_, ?_, ?_⟩
  · intro item
    rw [sidebarQuery]
    simp only [List.mem_map, List.mem_insertionSort, List.mem_filter, sidebarFilter_eq]
    constructor
    · rintro ⟨p, ⟨hmem, hs, hpar⟩, rfl⟩
      exact ⟨p, hmem, hs, hpar, rfl⟩
    · rintro ⟨p, hmem, hs, hpar, rfl⟩
      exact ⟨p, ⟨hmem, hs, hpar⟩, rfl⟩
  · have hs := List.sorted_insertionSort byPosition (store.filter (sidebarFilter dto))
    rw [sidebarQuery]
    exact List.Pairwise.map _ (fun a b h => h) hs
  · intro perPage
    refine ⟨(sidebarQuery store dto).length, ?_⟩
    have h := pagination_chunks (sidebarQuery store dto) 250 (sidebarQuery store dto).length
    exact h.trans (List.take_of_length_le
      (Nat.le_mul_of_pos_right _ (by norm_num)))

end Docmost
